import Mathlib

/-
Verification of the multi-signal estimation core of the NETS-AI repository.

Shallow embedding conventions:
* Python floats and ints are modelled as `ℚ` and `ℤ`; `None` as `Option.none`.
* `pandas.isna` / absent arguments are modelled by `Option`; Python truthiness
  of an optional number (`if x:`) is `x = some v` with `v ≠ 0`.
* `numpy.clip`, `round(x, 1)` and list `min`/`max` are embedded exactly.
* The transcendental factor `2 / log(review_total + 1)` appearing in the
  review-velocity confidence margin is abstracted as a parameter
  `mfun : ℤ → ℚ` (the source value is irrational); every theorem below holds
  for all `mfun`, since the code takes `max 0.15 (…)` of it.
* The pass-through identification fields (`duns_id`, `company_name`,
  `naics_code`) of the result dataclasses are omitted: the source copies them
  verbatim from the input record.

Sources embedded: `src/src/models/bayesian_employee_estimator.py` and
`src/src/models/survival_detector.py`, with category baselines from
`src/src/config.py` (`EMPLOYEE_ESTIMATION_BASELINES`).
-/

namespace NETS

/-- Category baseline, one entry of `EMPLOYEE_ESTIMATION_BASELINES` in
`src/src/config.py` (the fields the estimators read). -/
structure Baseline where
  employees_per_sqm : ℚ
  avg_reviews_per_month : ℚ
  avg_employees : ℚ
  min_employees : ℚ
  max_employees : ℚ
deriving DecidableEq

/-- Baseline for NAICS 722513 (quick service restaurants) from config.py. -/
def cfg722513 : Baseline := ⟨1/40, 15, 12, 4, 50⟩

/-- Baseline for NAICS 446110 (pharmacies) from config.py. -/
def cfg446110 : Baseline := ⟨1/50, 8, 10, 3, 35⟩

/-- The configured baseline table `EMPLOYEE_ESTIMATION_BASELINES`. -/
def B₀ : String → Option Baseline := fun s =>
  if s = "722513" then some cfg722513
  else if s = "446110" then some cfg446110
  else none

/-- numpy.clip a lo hi = min (max a lo) hi. -/
def npClip (x lo hi : ℚ) : ℚ := min (max x lo) hi

/-- Python round(x, 1), rounding to one decimal place.  Tie direction
(banker's rounding in Python, half-up here) is irrelevant to every claim
below: no claim evaluates `round` at a tie. -/
def round1 (q : ℚ) : ℚ := ((round (10 * q) : ℤ) : ℚ) / 10

/-- The fixed ensemble priority-weight table (default `weights` dict in
`EmployeeEstimator.ensemble_estimate`, with `weights.get(k, 0.1)`). -/
def weightOf (k : String) : ℚ :=
  if k = "linkedin" then 1/2
  else if k = "review_velocity" then 3/10
  else if k = "building_area" then 3/20
  else if k = "job_postings" then 1/20
  else 1/10

/-- Python min() over a nonempty list (0 as junk value on []). -/
def listMin : List ℚ → ℚ
  | [] => 0
  | [x] => x
  | x :: y :: t => min x (listMin (y :: t))

/-- Python max() over a nonempty list (0 as junk value on []). -/
def listMax : List ℚ → ℚ
  | [] => 0
  | [x] => x
  | x :: y :: t => max x (listMax (y :: t))

/-- Python max(iterable, key=f): first element with maximal key. -/
def pyMaxBy {α : Type} (f : α → ℚ) : List α → Option α
  | [] => none
  | x :: xs => some (xs.foldl (fun b y => if f b < f y then y else b) x)

/-- EmployeeEstimator.estimate_from_linkedin.  The `(None, None, None)` return
is `none`; `pd.isna` is handled by the `Option` at the call site. -/
def estimate_from_linkedin (v : ℚ) : Option (ℚ × ℚ × ℚ) :=
  if v ≤ 0 then none
  else some (v, max 1 (v * (9/10)), v * (11/10))

/-- EmployeeEstimator.estimate_from_review_velocity.  `mfun` abstracts
`2 / np.log(review_total + 1)` (see file header). -/
def estimate_from_review_velocity (B : String → Option Baseline) (mfun : ℤ → ℚ)
    (c3 c612 : ℤ) (naics : String) : Option (ℚ × ℚ × ℚ) :=
  match B naics with
  | none => none
  | some b =>
    if c3 < 3 ∨ c612 < 3 then none
    else
      let avg_rpm := b.avg_reviews_per_month
      let recent_monthly : ℚ := (c3 : ℚ) / 3
      let historical_monthly : ℚ := (c612 : ℚ) / 6
      -- dead store kept from the source: the substituted value is never read
      let _historical_subst : ℚ := if historical_monthly < 1 then avg_rpm else historical_monthly
      let intensity : ℚ := if 0 < avg_rpm then recent_monthly / avg_rpm else 1
      let point := npClip (b.avg_employees * intensity) b.min_employees b.max_employees
      let margin := max (3/20) (mfun (c3 + c612))
      some (point, max b.min_employees (point * (1 - margin)),
            min b.max_employees (point * (1 + margin)))

/-- EmployeeEstimator.estimate_from_building_area. -/
def estimate_from_building_area (B : String → Option Baseline)
    (area : ℚ) (naics : String) : Option (ℚ × ℚ × ℚ) :=
  if area ≤ 0 then none
  else
    match B naics with
    | none => none
    | some b =>
      let point := npClip (area * b.employees_per_sqm) b.min_employees b.max_employees
      some (point, max b.min_employees (point * (3/4)),
            min b.max_employees (point * (5/4)))

/-- EmployeeEstimator.estimate_from_job_postings. -/
def estimate_from_job_postings (B : String → Option Baseline)
    (p6 ppeak : ℤ) (naics : String) : Option (ℚ × ℚ × ℚ) :=
  match B naics with
  | none => none
  | some b =>
    if p6 < 1 ∧ ppeak < 2 then none
    else
      let historical_max : ℤ := max 1 ppeak
      let hiring_intensity : ℚ := (p6 : ℚ) / (historical_max : ℚ)
      let multiplier : ℚ :=
        if hiring_intensity > 7/10 then 6/5
        else if hiring_intensity > 1/5 then 1
        else 9/10
      let point := npClip (b.avg_employees * multiplier) b.min_employees b.max_employees
      some (point, max b.min_employees (point * (7/10)),
            min b.max_employees (point * (13/10)))

/-- Caller-side guard `if linkedin_headcount:` composed with the estimator. -/
def linkedinSignal (lh : Option ℚ) : Option (ℚ × ℚ × ℚ) :=
  match lh with
  | some v => if v ≠ 0 then estimate_from_linkedin v else none
  | none => none

/-- Caller-side guard `if review_count_3m and review_count_6_12m:`. -/
def velocitySignal (B : String → Option Baseline) (mfun : ℤ → ℚ)
    (naics : String) (c3 c612 : Option ℤ) : Option (ℚ × ℚ × ℚ) :=
  match c3, c612 with
  | some a, some b => if a ≠ 0 ∧ b ≠ 0 then estimate_from_review_velocity B mfun a b naics else none
  | _, _ => none

/-- Caller-side guard `if building_area_sqm:`. -/
def areaSignal (B : String → Option Baseline) (naics : String)
    (area : Option ℚ) : Option (ℚ × ℚ × ℚ) :=
  match area with
  | some ar => if ar ≠ 0 then estimate_from_building_area B ar naics else none
  | none => none

/-- Caller-side guard `if job_postings_6m is not None and job_postings_peak is not None:`. -/
def postingsSignal (B : String → Option Baseline) (naics : String)
    (p6 pp : Option ℤ) : Option (ℚ × ℚ × ℚ) :=
  match p6, pp with
  | some x, some y => estimate_from_job_postings B x y naics
  | _, _ => none

/-- Insertion of one signal into the `estimates` dict, including the
`if point:` truthiness filter of the source. -/
def optEntry (n : String) (o : Option (ℚ × ℚ × ℚ)) : List (String × (ℚ × ℚ × ℚ)) :=
  match o with
  | some t => if t.1 ≠ 0 then [(n, t)] else []
  | none => []

/-- The `estimates` dict built by `EmployeeEstimator.estimate`, in insertion
order linkedin, review_velocity, building_area, job_postings. -/
def employeeSignalList (B : String → Option Baseline) (mfun : ℤ → ℚ) (naics : String)
    (lh : Option ℚ) (c3 c612 : Option ℤ) (area : Option ℚ) (p6 pp : Option ℤ) :
    List (String × (ℚ × ℚ × ℚ)) :=
  optEntry "linkedin" (linkedinSignal lh) ++
  optEntry "review_velocity" (velocitySignal B mfun naics c3 c612) ++
  optEntry "building_area" (areaSignal B naics area) ++
  optEntry "job_postings" (postingsSignal B naics p6 pp)

/-- EmployeeEstimator._determine_confidence. -/
def determineConfidence (keys : List String) : String :=
  if keys.contains "linkedin" then "high"
  else if 3 ≤ keys.length then "high"
  else if keys.length = 2 ∧ keys.contains "review_velocity" then "medium"
  else if 1 ≤ keys.length then "medium"
  else "low"

/-- The `valid_estimates` filter at the top of `ensemble_estimate`
(drops entries whose point is the missing marker). -/
def validEstimates (estimates : List (String × Option (ℚ × ℚ × ℚ))) :
    List (String × (ℚ × ℚ × ℚ)) :=
  estimates.filterMap (fun kv => kv.2.map (fun t => (kv.1, t)))

/-- Sum of the fixed weights of the contributing signals. -/
def sumWeights (valid : List (String × (ℚ × ℚ × ℚ))) : ℚ :=
  (valid.map (fun kv => weightOf kv.1)).sum

/-- The renormalized `available_weights` dict of `ensemble_estimate`. -/
def availableWeights (valid : List (String × (ℚ × ℚ × ℚ))) : List (String × ℚ) :=
  valid.map (fun kv => (kv.1, weightOf kv.1 / sumWeights valid))

/-- EmployeeEstimator.ensemble_estimate (with the default weight table):
weighted average point, widest bounds, first-maximal-weight dominant signal.
Empty contributing set returns `none` (the source's (None, None, None, none)). -/
def ensemble_estimate (estimates : List (String × Option (ℚ × ℚ × ℚ))) :
    Option (ℚ × ℚ × ℚ × String) :=
  match validEstimates estimates with
  | [] => none
  | v :: vs =>
    let valid := v :: vs
    let nw := (availableWeights valid).map (fun kv => kv.2)
    let point := ((valid.map (fun kv => (weightOf kv.1 / sumWeights valid) * kv.2.1)).sum) / nw.sum
    let lo := listMin (valid.map (fun kv => kv.2.2.1))
    let hi := listMax (valid.map (fun kv => kv.2.2.2))
    let dom := match pyMaxBy (fun kv => kv.2) (availableWeights valid) with
      | some kv => kv.1
      | none => "none"
    some (point, lo, hi, dom)

/-- Combined employee estimate (dataclass `EmployeeEstimate`, minus the
verbatim pass-through identification fields). -/
structure EmployeeEstimate where
  point_estimate : Option ℚ
  ci_lower : Option ℚ
  ci_upper : Option ℚ
  confidence_level : String
  estimation_method : String
  primary_signal : String
  signals_used : List String
deriving DecidableEq

/-- The source's `round(x, 1) if x else None` wrapper on the result fields. -/
def optRound (q : ℚ) : Option ℚ := if q ≠ 0 then some (round1 q) else none

/-- Fallback `self.naics_baselines.get(naics_code, {}).get('avg_employees', 10)`. -/
def fallbackAvg (B : String → Option Baseline) (naics : String) : ℚ :=
  match B naics with | some b => b.avg_employees | none => 10

/-- Fallback `.get('min_employees', 3)`. -/
def fallbackMin (B : String → Option Baseline) (naics : String) : ℚ :=
  match B naics with | some b => b.min_employees | none => 3

/-- Fallback `.get('max_employees', 30)`. -/
def fallbackMax (B : String → Option Baseline) (naics : String) : ℚ :=
  match B naics with | some b => b.max_employees | none => 30

/-- EmployeeEstimator.estimate: signal collection, confidence, method
selection, ensemble combination or baseline fallback, and result assembly. -/
def estimate (B : String → Option Baseline) (mfun : ℤ → ℚ) (naics : String)
    (lh : Option ℚ) (c3 c612 : Option ℤ) (area : Option ℚ) (p6 pp : Option ℤ) :
    EmployeeEstimate :=
  let ests := employeeSignalList B mfun naics lh c3 c612 area p6 pp
  let names := ests.map (fun kv => kv.1)
  let conf := determineConfidence names
  let method :=
    if names.contains "linkedin" then "linkedin"
    else if 2 ≤ ests.length then "xgboost"
    else "rule_based"
  let res : ℚ × ℚ × ℚ × String :=
    match ests with
    | [] => (fallbackAvg B naics, fallbackMin B naics, fallbackMax B naics, "baseline")
    | _ :: _ =>
      -- `ests` nonempty makes the ensemble return a value; the default is junk
      (ensemble_estimate (ests.map (fun kv => (kv.1, some kv.2)))).getD (0, 0, 0, "none")
  ⟨optRound res.1, optRound res.2.1, optRound res.2.2.1, conf, method, res.2.2.2, names⟩

/-- A constant stand-in for the abstracted margin function, used in the
concrete counterexamples and witnesses. -/
def mfun1 : ℤ → ℚ := fun _ => 1

/-- Well-formedness of one category baseline: positive lower clamp and
`min ≤ avg ≤ max` (true of every configured entry). -/
def WFb (b : Baseline) : Prop :=
  0 < b.min_employees ∧ b.min_employees ≤ b.avg_employees ∧
    b.avg_employees ≤ b.max_employees

/-- SurvivalDetector.calculate_review_decay_rate.  `if not count:` truthiness
treats both the missing marker and a literal 0 as absent. -/
def calculate_review_decay_rate (c3 c612 : Option ℤ) : Option ℚ :=
  match c3, c612 with
  | some a, some b =>
    if a = 0 ∨ b = 0 then none
    else if b < 2 then none
    else
      let recent_monthly : ℚ := (a : ℚ) / 3
      let historical_monthly : ℚ := (b : ℚ) / 6
      if historical_monthly < 1/10 then none
      else some (recent_monthly / historical_monthly)
  | _, _ => none

/-- SurvivalDetector.evaluate_job_posting_activity: (activity ratio,
has-recent-activity); neutral (0.5, False) when either input is missing. -/
def evaluate_job_posting_activity (p6 pp : Option ℤ) : ℚ × Bool :=
  match p6, pp with
  | some a, some b =>
    let peak : ℤ := max 1 b
    let rt : ℚ := (a : ℚ) / (peak : ℚ)
    (rt, decide (1 ≤ a) && decide ((1/5 : ℚ) ≤ rt))
  | _, _ => (1/2, false)

/-- SurvivalDetector.evaluate_street_view: majority vote over the present
boolean cues, `none` when all three are missing. -/
def evaluate_street_view (f s l : Option Bool) : Option Bool :=
  match f, s, l with
  | none, none, none => none
  | _, _, _ =>
    let non_null := ([f, s, l].filterMap id)
    if non_null = [] then none
    else some (decide (2 ≤ non_null.count true))

/-- One contributing survival factor: name, 0-1 score, fixed weight, and the
optional protective / risk annotation it appends.  Numeric formatting inside
the annotation strings (Python f-strings, `:.2f`) is abstracted by `toString`. -/
structure SurvFactor where
  name : String
  score : ℚ
  weight : ℚ
  protNote : Option String
  riskNote : Option String
deriving DecidableEq

/-- Review-recency factor block of `score_survival` (weight 0.35).  The
days-since value is the output of `evaluate_review_recency` (date parsing
against the current date is outside the embedding; the tiers consume only
this integer). -/
def recencyFactor (days : Option ℤ) : List SurvFactor :=
  match days with
  | none => []
  | some d =>
    if d ≤ 30 then
      [⟨"review_recency", 1, 7/20, some ("Recent review (" ++ toString d ++ " days ago)"), none⟩]
    else if d ≤ 90 then
      [⟨"review_recency", 3/4, 7/20, some ("Moderate recency (" ++ toString d ++ " days)"), none⟩]
    else if d ≤ 180 then
      [⟨"review_recency", 2/5, 7/20, none, some ("Declining activity (" ++ toString d ++ " days since review)")⟩]
    else
      [⟨"review_recency", 1/10, 7/20, none, some ("No recent activity (" ++ toString d ++ " days without review)")⟩]

/-- Review-decay factor block of `score_survival` (weight 0.30). -/
def decayFactor (c3 c612 : Option ℤ) : List SurvFactor :=
  match calculate_review_decay_rate c3 c612 with
  | none => []
  | some dr =>
    if dr > 6/5 then
      [⟨"review_decay", 9/10, 3/10, some ("Growing reviews (decay=" ++ toString dr ++ ")"), none⟩]
    else if dr > 4/5 then
      [⟨"review_decay", 4/5, 3/10, some "Stable review activity", none⟩]
    else if dr > 1/2 then
      [⟨"review_decay", 1/2, 3/10, none, some ("Declining reviews (decay=" ++ toString dr ++ ")")⟩]
    else
      [⟨"review_decay", 1/5, 3/10, none, some ("Sharp review decline (decay=" ++ toString dr ++ ")")⟩]

/-- Truthiness of `job_postings_peak and job_postings_peak > 0`. -/
def peakTruthyPos (pp : Option ℤ) : Bool :=
  match pp with
  | some y => decide (y ≠ 0) && decide (0 < y)
  | none => false

/-- Job-posting factor block of `score_survival` (weight 0.20); entered
whenever `job_postings_6m is not None`, so a present zero count still
contributes a factor. -/
def postingsFactor (p6 pp : Option ℤ) : List SurvFactor :=
  match p6 with
  | none => []
  | some _ =>
    let ra := evaluate_job_posting_activity p6 pp
    if ra.2 ∧ 3/5 < ra.1 then
      [⟨"job_postings", 17/20, 1/5, some "Active hiring", none⟩]
    else if ra.2 then
      [⟨"job_postings", 13/20, 1/5, some "Recent job postings", none⟩]
    else if peakTruthyPos pp then
      [⟨"job_postings", 7/20, 1/5, none, some "Reduced hiring activity"⟩]
    else
      [⟨"job_postings", 1/2, 1/5, none, none⟩]

/-- Street-view factor block of `score_survival` (weight 0.15). -/
def streetFactor (f s l : Option Bool) : List SurvFactor :=
  match evaluate_street_view f s l with
  | none => []
  | some sv =>
    if sv then
      [⟨"street_view", 4/5, 3/20, some "Visible operational indicators", none⟩]
    else
      [⟨"street_view", 1/5, 3/20, none, some "No visible operational indicators"⟩]

/-- All contributing survival factors, in the fixed evaluation order of
`score_survival`: review_recency, review_decay, job_postings, street_view. -/
def survivalFactors (days : Option ℤ) (c3 c612 p6 pp : Option ℤ)
    (f s l : Option Bool) : List SurvFactor :=
  recencyFactor days ++ decayFactor c3 c612 ++ postingsFactor p6 pp ++ streetFactor f s l

/-- numpy population variance of a list (junk 0 on []). -/
def npVar (xs : List ℚ) : ℚ :=
  match xs with
  | [] => 0
  | _ =>
    let m := xs.sum / (xs.length : ℚ)
    (xs.map (fun x => (x - m)^2)).sum / (xs.length : ℚ)

/-- SurvivalDetector._determine_confidence, including the source's variance
computation whose two branches both return high. -/
def survDetermineConfidence (signal_count : ℕ) (scores : List ℚ) : String :=
  if 3 ≤ signal_count then
    let v := if 1 < scores.length then npVar scores else 0
    if v < 1/10 then "high" else "high"
  else if signal_count = 2 then "medium"
  else "low"

/-- SurvivalDetector._identify_primary_indicator: np.argmax of score·weight
(first index of the maximum), name of that factor; none contributing gives
the string none. -/
def identifyPrimary (facs : List SurvFactor) : String :=
  match facs with
  | [] => "none"
  | x :: xs =>
    (xs.foldl (fun b y => if b.score * b.weight < y.score * y.weight then y else b) x).name

/-- The renormalized weight list of `score_survival`
(`[w / total_weight for w in signal_weights]`). -/
def survivalNormWeights (facs : List SurvFactor) : List ℚ :=
  (facs.map (fun x => x.weight)).map (fun w => w / (facs.map (fun x => x.weight)).sum)

/-- Result dictionary of `score_survival` (minus pass-through identification). -/
structure SurvivalScore where
  is_active_prob : ℚ
  confidence_level : String
  days_since_last_review : Option ℤ
  review_decay_rate : Option ℚ
  risk_factors : List String
  protective_factors : List String
  primary_indicator : String
  signals_used : List String
  signal_count : ℕ
deriving DecidableEq

/-- SurvivalDetector.score_survival: factor collection, weighted probability
(neutral 0.5 fallback), confidence, primary indicator, result assembly. -/
def score_survival (days : Option ℤ) (c3 c612 p6 pp : Option ℤ)
    (f s l : Option Bool) : SurvivalScore :=
  let facs := survivalFactors days c3 c612 p6 pp f s l
  let scores := facs.map (fun x => x.score)
  let nw := survivalNormWeights facs
  let prob : ℚ :=
    match facs with
    | [] => 1/2
    | _ :: _ => (List.zipWith (fun sc w => sc * w) scores nw).sum / nw.sum
  let protective :=
    match facs with
    | [] => ["Insufficient data - neutral assessment"]
    | _ :: _ => facs.filterMap (fun x => x.protNote)
  ⟨prob, survDetermineConfidence facs.length scores, days,
   calculate_review_decay_rate c3 c612,
   facs.filterMap (fun x => x.riskNote), protective,
   identifyPrimary facs, facs.map (fun x => x.name), facs.length⟩

/-- The claimed count-only survival confidence rule, for comparison with the
source's `_determine_confidence`. -/
def countRule (n : ℕ) : String :=
  if 3 ≤ n then "high" else if n = 2 then "medium" else "low"

/-- Fixed employee-path priority order of signal names. -/
def employeeSignalOrder : List String :=
  ["linkedin", "review_velocity", "building_area", "job_postings"]

/-- Fixed survival-path evaluation order of factor names. -/
def survivalSignalOrder : List String :=
  ["review_recency", "review_decay", "job_postings", "street_view"]

theorem round1_mono {x y : ℚ} (h : x ≤ y) : round1 x ≤ round1 y := by
  unfold round1
  have hr : round ((10:ℚ) * x) ≤ round ((10:ℚ) * y) := by
    rw [round_eq, round_eq]
    exact Int.floor_le_floor (by linarith)
  have hc : ((round ((10:ℚ) * x) : ℤ) : ℚ) ≤ ((round ((10:ℚ) * y) : ℤ) : ℚ) :=
    Int.cast_le.mpr hr
  linarith

theorem round1_int (n : ℤ) : round1 ((n : ℤ) : ℚ) = n := by
  unfold round1
  rw [show (10:ℚ) * (n : ℚ) = ((10 * n : ℤ) : ℚ) by push_cast; ring, round_intCast]
  push_cast
  ring

theorem npClip_le (x : ℚ) {lo hi : ℚ} (h : lo ≤ hi) :
    lo ≤ npClip x lo hi ∧ npClip x lo hi ≤ hi := by
  unfold npClip
  constructor
  · exact le_min (le_max_right x lo) h
  · exact min_le_right _ _

theorem listMin_le (l : List ℚ) : ∀ x ∈ l, listMin l ≤ x := by
  induction l with
  | nil => simp
  | cons a t ih =>
    intro x hx
    cases t with
    | nil =>
      rcases List.mem_singleton.mp hx with rfl
      simp [listMin]
    | cons b u =>
      rcases List.mem_cons.mp hx with rfl | h
      · simp [listMin]
      · calc listMin (a :: b :: u) ≤ listMin (b :: u) := by
              simp [listMin]
          _ ≤ x := ih x h

theorem listMin_mem (l : List ℚ) (h : l ≠ []) : listMin l ∈ l := by
  induction l with
  | nil => exact absurd rfl h
  | cons a t ih =>
    cases t with
    | nil => simp [listMin]
    | cons b u =>
      rcases min_cases a (listMin (b :: u)) with ⟨he, _⟩ | ⟨he, _⟩
      · simp [listMin, he]
      · have := ih (by simp)
        simp only [listMin, he]
        exact List.mem_cons_of_mem a this

theorem le_listMax (l : List ℚ) : ∀ x ∈ l, x ≤ listMax l := by
  induction l with
  | nil => simp
  | cons a t ih =>
    intro x hx
    cases t with
    | nil =>
      rcases List.mem_singleton.mp hx with rfl
      simp [listMax]
    | cons b u =>
      rcases List.mem_cons.mp hx with rfl | h
      · simp [listMax]
      · calc x ≤ listMax (b :: u) := ih x h
          _ ≤ listMax (a :: b :: u) := by simp [listMax]

theorem weightOf_pos (k : String) : 0 < weightOf k := by
  unfold weightOf
  split_ifs <;> norm_num

theorem sum_map_div {α : Type} (l : List α) (f : α → ℚ) (c : ℚ) :
    (l.map (fun x => f x / c)).sum = (l.map f).sum / c := by
  induction l with
  | nil => simp
  | cons a t ih => simp [ih, add_div]

theorem sum_norm_one {α : Type} (l : List α) (f : α → ℚ)
    (hf : ∀ x ∈ l, 0 < f x) (hne : l ≠ []) :
    (l.map (fun x => f x / (l.map f).sum)).sum = 1 := by
  have hpos : 0 < (l.map f).sum := by
    refine List.sum_pos _ ?_ ?_
    · intro x hx
      obtain ⟨y, hy, rfl⟩ := List.mem_map.mp hx
      exact hf y hy
    · simpa using hne
  rw [sum_map_div, div_self (ne_of_gt hpos)]

theorem weighted_sum_le {α : Type} (l : List α) (w p : α → ℚ) (hi : ℚ)
    (hw : ∀ x ∈ l, 0 ≤ w x) (hp : ∀ x ∈ l, p x ≤ hi) :
    (l.map (fun x => w x * p x)).sum ≤ hi * (l.map w).sum := by
  induction l with
  | nil => simp
  | cons a t ih =>
    simp only [List.map_cons, List.sum_cons]
    have h1 : w a * p a ≤ w a * hi :=
      mul_le_mul_of_nonneg_left (hp a (by simp)) (hw a (by simp))
    have h2 := ih (fun x hx => hw x (by simp [hx])) (fun x hx => hp x (by simp [hx]))
    nlinarith

theorem le_weighted_sum {α : Type} (l : List α) (w p : α → ℚ) (lo : ℚ)
    (hw : ∀ x ∈ l, 0 ≤ w x) (hp : ∀ x ∈ l, lo ≤ p x) :
    lo * (l.map w).sum ≤ (l.map (fun x => w x * p x)).sum := by
  induction l with
  | nil => simp
  | cons a t ih =>
    simp only [List.map_cons, List.sum_cons]
    have h1 : w a * lo ≤ w a * p a :=
      mul_le_mul_of_nonneg_left (hp a (by simp)) (hw a (by simp))
    have h2 := ih (fun x hx => hw x (by simp [hx])) (fun x hx => hp x (by simp [hx]))
    nlinarith

theorem validEstimates_map_some (l : List (String × (ℚ × ℚ × ℚ))) :
    validEstimates (l.map (fun kv => (kv.1, some kv.2))) = l := by
  induction l with
  | nil => rfl
  | cons a t ih =>
    simp only [List.map_cons, validEstimates, List.filterMap_cons] at ih ⊢
    simp [ih]

theorem linkedin_bounds {v : ℚ} {t : ℚ × ℚ × ℚ}
    (h : estimate_from_linkedin v = some t) (hv : 1 ≤ v ∨ v ≤ 0) :
    0 < t.2.1 ∧ t.2.1 ≤ t.1 ∧ t.1 ≤ t.2.2 := by
  unfold estimate_from_linkedin at h
  split at h
  · exact absurd h (by simp)
  · rename_i hv0
    injection h with h'
    subst h'
    rcases hv with h1 | h0
    · refine ⟨lt_of_lt_of_le one_pos (le_max_left _ _), ?_, ?_⟩
      · exact max_le h1 (by nlinarith)
      · nlinarith
    · exact absurd h0 hv0

theorem velocity_baseline {B : String → Option Baseline} {mfun : ℤ → ℚ}
    {c3 c612 : ℤ} {naics : String} {t : ℚ × ℚ × ℚ}
    (h : estimate_from_review_velocity B mfun c3 c612 naics = some t) :
    ∃ b, B naics = some b := by
  unfold estimate_from_review_velocity at h
  cases hb : B naics with
  | none => rw [hb] at h; exact absurd h (by simp)
  | some b => exact ⟨b, rfl⟩

theorem velocity_bounds {B : String → Option Baseline} {mfun : ℤ → ℚ}
    {c3 c612 : ℤ} {naics : String} {b : Baseline} {t : ℚ × ℚ × ℚ}
    (hB : B naics = some b) (hwf : WFb b)
    (h : estimate_from_review_velocity B mfun c3 c612 naics = some t) :
    (0 < t.2.1 ∧ t.2.1 ≤ t.1 ∧ t.1 ≤ t.2.2) ∧
      b.min_employees ≤ t.1 ∧ t.1 ≤ b.max_employees := by
  obtain ⟨hmin, hminavg, havgmax⟩ := hwf
  have hmm : b.min_employees ≤ b.max_employees := le_trans hminavg havgmax
  unfold estimate_from_review_velocity at h
  rw [hB] at h
  split at h
  · exact absurd h (by simp)
  · rename_i bb heq
    injection heq with hbe
    subst hbe
    split at h
    · exact absurd h (by simp)
    simp only [Option.some.injEq] at h
    subst h
    set P := npClip (b.avg_employees *
      (if 0 < b.avg_reviews_per_month then (c3 : ℚ) / 3 / b.avg_reviews_per_month else 1))
      b.min_employees b.max_employees with hP
    obtain ⟨hPlo, hPhi⟩ := npClip_le (x := b.avg_employees *
      (if 0 < b.avg_reviews_per_month then (c3 : ℚ) / 3 / b.avg_reviews_per_month else 1)) hmm
    rw [← hP] at hPlo hPhi
    have hPpos : 0 < P := lt_of_lt_of_le hmin hPlo
    set m := max (3/20 : ℚ) (mfun (c3 + c612)) with hm
    have hm0 : (0:ℚ) ≤ m := le_trans (by norm_num) (le_max_left _ _)
    refine ⟨⟨lt_of_lt_of_le hmin (le_max_left _ _), ?_, ?_⟩, hPlo, hPhi⟩
    · exact max_le hPlo (by nlinarith)
    · exact le_min hPhi (by nlinarith)

theorem area_baseline {B : String → Option Baseline} {area : ℚ} {naics : String}
    {t : ℚ × ℚ × ℚ} (h : estimate_from_building_area B area naics = some t) :
    ∃ b, B naics = some b := by
  unfold estimate_from_building_area at h
  split at h
  · exact absurd h (by simp)
  · cases hb : B naics with
    | none => rw [hb] at h; exact absurd h (by simp)
    | some b => exact ⟨b, rfl⟩

theorem area_bounds {B : String → Option Baseline} {area : ℚ} {naics : String}
    {b : Baseline} {t : ℚ × ℚ × ℚ}
    (hB : B naics = some b) (hwf : WFb b)
    (h : estimate_from_building_area B area naics = some t) :
    (0 < t.2.1 ∧ t.2.1 ≤ t.1 ∧ t.1 ≤ t.2.2) ∧
      b.min_employees ≤ t.1 ∧ t.1 ≤ b.max_employees := by
  obtain ⟨hmin, hminavg, havgmax⟩ := hwf
  have hmm : b.min_employees ≤ b.max_employees := le_trans hminavg havgmax
  unfold estimate_from_building_area at h
  split at h
  · exact absurd h (by simp)
  · rw [hB] at h
    simp only [Option.some.injEq] at h
    subst h
    obtain ⟨hPlo, hPhi⟩ := npClip_le (area * b.employees_per_sqm) hmm
    have hPpos : 0 < npClip (area * b.employees_per_sqm) b.min_employees b.max_employees :=
      lt_of_lt_of_le hmin hPlo
    refine ⟨⟨lt_of_lt_of_le hmin (le_max_left _ _), ?_, ?_⟩, hPlo, hPhi⟩
    · exact max_le hPlo (by nlinarith)
    · exact le_min hPhi (by nlinarith)

theorem postings_baseline {B : String → Option Baseline} {p6 ppeak : ℤ}
    {naics : String} {t : ℚ × ℚ × ℚ}
    (h : estimate_from_job_postings B p6 ppeak naics = some t) :
    ∃ b, B naics = some b := by
  unfold estimate_from_job_postings at h
  cases hb : B naics with
  | none => rw [hb] at h; exact absurd h (by simp)
  | some b => exact ⟨b, rfl⟩

theorem postings_bounds {B : String → Option Baseline} {p6 ppeak : ℤ}
    {naics : String} {b : Baseline} {t : ℚ × ℚ × ℚ}
    (hB : B naics = some b) (hwf : WFb b)
    (h : estimate_from_job_postings B p6 ppeak naics = some t) :
    (0 < t.2.1 ∧ t.2.1 ≤ t.1 ∧ t.1 ≤ t.2.2) ∧
      b.min_employees ≤ t.1 ∧ t.1 ≤ b.max_employees := by
  obtain ⟨hmin, hminavg, havgmax⟩ := hwf
  have hmm : b.min_employees ≤ b.max_employees := le_trans hminavg havgmax
  unfold estimate_from_job_postings at h
  rw [hB] at h
  split at h
  · exact absurd h (by simp)
  · rename_i bb heq
    injection heq with hbe
    subst hbe
    split at h
    · exact absurd h (by simp)
    simp only [Option.some.injEq] at h
    subst h
    set mult := (if ((p6 : ℚ) / ((max 1 ppeak : ℤ) : ℚ)) > 7/10 then (6/5 : ℚ)
      else if ((p6 : ℚ) / ((max 1 ppeak : ℤ) : ℚ)) > 1/5 then 1 else 9/10) with hmult
    obtain ⟨hPlo, hPhi⟩ := npClip_le (b.avg_employees * mult) hmm
    have hPpos : 0 < npClip (b.avg_employees * mult) b.min_employees b.max_employees :=
      lt_of_lt_of_le hmin hPlo
    refine ⟨⟨lt_of_lt_of_le hmin (le_max_left _ _), ?_, ?_⟩, hPlo, hPhi⟩
    · exact max_le hPlo (by nlinarith)
    · exact le_min hPhi (by nlinarith)

theorem mem_optEntry {n : String} {o : Option (ℚ × ℚ × ℚ)} {kv : String × (ℚ × ℚ × ℚ)}
    (h : kv ∈ optEntry n o) : kv.1 = n ∧ o = some kv.2 := by
  cases o with
  | none => simp [optEntry] at h
  | some t =>
    simp only [optEntry] at h
    by_cases ht : t.1 = 0
    · rw [if_neg (not_not_intro ht)] at h
      simp at h
    · rw [if_pos ht] at h
      rcases List.mem_singleton.mp h with rfl
      exact ⟨rfl, rfl⟩

theorem employeeSignalList_bounds {B : String → Option Baseline} {mfun : ℤ → ℚ}
    {naics : String} {lh : Option ℚ} {c3 c612 : Option ℤ} {area : Option ℚ}
    {p6 pp : Option ℤ}
    (hB : ∀ b, B naics = some b → WFb b)
    (hlh : ∀ v, lh = some v → 1 ≤ v ∨ v ≤ 0) :
    ∀ kv ∈ employeeSignalList B mfun naics lh c3 c612 area p6 pp,
      0 < kv.2.2.1 ∧ kv.2.2.1 ≤ kv.2.1 ∧ kv.2.1 ≤ kv.2.2.2 := by
  intro kv hkv
  unfold employeeSignalList at hkv
  rcases List.mem_append.mp hkv with h3 | h
  rotate_left
  · obtain ⟨_, hsig⟩ := mem_optEntry h
    rcases p6 with _ | x
    · exact absurd hsig (by simp [postingsSignal])
    rcases pp with _ | y
    · exact absurd hsig (by simp [postingsSignal])
    simp only [postingsSignal] at hsig
    obtain ⟨b, hb⟩ := postings_baseline hsig
    exact (postings_bounds hb (hB b hb) hsig).1
  rcases List.mem_append.mp h3 with h2 | h
  rotate_left
  · obtain ⟨_, hsig⟩ := mem_optEntry h
    rcases area with _ | ar
    · exact absurd hsig (by simp [areaSignal])
    simp only [areaSignal] at hsig
    by_cases hz : ar = 0
    · rw [if_neg (not_not_intro hz)] at hsig
      exact absurd hsig (by simp)
    · rw [if_pos hz] at hsig
      obtain ⟨b, hb⟩ := area_baseline hsig
      exact (area_bounds hb (hB b hb) hsig).1
  rcases List.mem_append.mp h2 with h | h
  · obtain ⟨_, hsig⟩ := mem_optEntry h
    rcases lh with _ | v
    · exact absurd hsig (by simp [linkedinSignal])
    simp only [linkedinSignal] at hsig
    by_cases hz : v = 0
    · rw [if_neg (not_not_intro hz)] at hsig
      exact absurd hsig (by simp)
    · rw [if_pos hz] at hsig
      exact linkedin_bounds hsig (hlh v rfl)
  · obtain ⟨_, hsig⟩ := mem_optEntry h
    rcases c3 with _ | a
    · exact absurd hsig (by simp [velocitySignal])
    rcases c612 with _ | b2
    · exact absurd hsig (by simp [velocitySignal])
    simp only [velocitySignal] at hsig
    by_cases hz : a ≠ 0 ∧ b2 ≠ 0
    · rw [if_pos hz] at hsig
      obtain ⟨b, hb⟩ := velocity_baseline hsig
      exact (velocity_bounds hb (hB b hb) hsig).1
    · rw [if_neg hz] at hsig
      exact absurd hsig (by simp)

theorem employeeSignalList_range {B : String → Option Baseline} {mfun : ℤ → ℚ}
    {naics : String} {c3 c612 : Option ℤ} {area : Option ℚ} {p6 pp : Option ℤ}
    {b : Baseline} (hb : B naics = some b) (hwf : WFb b) :
    ∀ kv ∈ employeeSignalList B mfun naics none c3 c612 area p6 pp,
      b.min_employees ≤ kv.2.1 ∧ kv.2.1 ≤ b.max_employees := by
  intro kv hkv
  unfold employeeSignalList at hkv
  rcases List.mem_append.mp hkv with h3 | h
  rotate_left
  · obtain ⟨_, hsig⟩ := mem_optEntry h
    rcases p6 with _ | x
    · exact absurd hsig (by simp [postingsSignal])
    rcases pp with _ | y
    · exact absurd hsig (by simp [postingsSignal])
    simp only [postingsSignal] at hsig
    exact (postings_bounds hb hwf hsig).2
  rcases List.mem_append.mp h3 with h2 | h
  rotate_left
  · obtain ⟨_, hsig⟩ := mem_optEntry h
    rcases area with _ | ar
    · exact absurd hsig (by simp [areaSignal])
    simp only [areaSignal] at hsig
    by_cases hz : ar = 0
    · rw [if_neg (not_not_intro hz)] at hsig
      exact absurd hsig (by simp)
    · rw [if_pos hz] at hsig
      exact (area_bounds hb hwf hsig).2
  rcases List.mem_append.mp h2 with h | h
  · obtain ⟨_, hsig⟩ := mem_optEntry h
    exact absurd hsig (by simp [linkedinSignal])
  · obtain ⟨_, hsig⟩ := mem_optEntry h
    rcases c3 with _ | a
    · exact absurd hsig (by simp [velocitySignal])
    rcases c612 with _ | b2
    · exact absurd hsig (by simp [velocitySignal])
    simp only [velocitySignal] at hsig
    by_cases hz : a ≠ 0 ∧ b2 ≠ 0
    · rw [if_pos hz] at hsig
      exact (velocity_bounds hb hwf hsig).2
    · rw [if_neg hz] at hsig
      exact absurd hsig (by simp)

theorem availableWeights_snd (l : List (String × (ℚ × ℚ × ℚ))) :
    (availableWeights l).map (fun kv => kv.2) =
      l.map (fun kv => weightOf kv.1 / sumWeights l) := by
  simp only [availableWeights, List.map_map]
  rfl

theorem ensemble_point_bounds (valid : List (String × (ℚ × ℚ × ℚ)))
    (hne : valid ≠ []) (lo' hi' : ℚ)
    (hp : ∀ kv ∈ valid, lo' ≤ kv.2.1 ∧ kv.2.1 ≤ hi') :
    ∃ pt dom,
      ensemble_estimate (valid.map (fun kv => (kv.1, some kv.2))) =
        some (pt, listMin (valid.map (fun kv => kv.2.2.1)),
              listMax (valid.map (fun kv => kv.2.2.2)), dom) ∧
      lo' ≤ pt ∧ pt ≤ hi' := by
  have hW : 0 < sumWeights valid := by
    refine List.sum_pos _ ?_ ?_
    · intro x hx
      obtain ⟨kv, _, rfl⟩ := List.mem_map.mp hx
      exact weightOf_pos kv.1
    · simpa using hne
  have hwpos : ∀ kv ∈ valid, 0 ≤ weightOf kv.1 / sumWeights valid := by
    intro kv _
    exact le_of_lt (div_pos (weightOf_pos kv.1) hW)
  have hT : 0 < (valid.map (fun kv => weightOf kv.1 / sumWeights valid)).sum := by
    refine List.sum_pos _ ?_ ?_
    · intro x hx
      obtain ⟨kv, _, rfl⟩ := List.mem_map.mp hx
      exact div_pos (weightOf_pos kv.1) hW
    · simpa using hne
  have hS1 : lo' * (valid.map (fun kv => weightOf kv.1 / sumWeights valid)).sum ≤
      (valid.map (fun kv => (weightOf kv.1 / sumWeights valid) * kv.2.1)).sum :=
    le_weighted_sum valid _ _ lo' hwpos (fun kv hkv => (hp kv hkv).1)
  have hS2 : (valid.map (fun kv => (weightOf kv.1 / sumWeights valid) * kv.2.1)).sum ≤
      hi' * (valid.map (fun kv => weightOf kv.1 / sumWeights valid)).sum :=
    weighted_sum_le valid _ _ hi' hwpos (fun kv hkv => (hp kv hkv).2)
  cases hv : valid with
  | nil => exact absurd hv hne
  | cons v vs =>
    subst hv
    unfold ensemble_estimate
    rw [validEstimates_map_some]
    refine ⟨_, _, rfl, ?_, ?_⟩
    · rw [availableWeights_snd, le_div_iff₀ hT]
      exact hS1
    · rw [availableWeights_snd, div_le_iff₀ hT]
      exact hS2

theorem estimate_nil {B : String → Option Baseline} {mfun : ℤ → ℚ} {naics : String}
    {lh : Option ℚ} {c3 c612 : Option ℤ} {area : Option ℚ} {p6 pp : Option ℤ}
    (h : employeeSignalList B mfun naics lh c3 c612 area p6 pp = []) :
    estimate B mfun naics lh c3 c612 area p6 pp =
      ⟨optRound (fallbackAvg B naics), optRound (fallbackMin B naics),
       optRound (fallbackMax B naics), "low", "rule_based", "baseline", []⟩ := by
  simp [estimate, h, determineConfidence]

theorem estimate_cons {B : String → Option Baseline} {mfun : ℤ → ℚ} {naics : String}
    {lh : Option ℚ} {c3 c612 : Option ℤ} {area : Option ℚ} {p6 pp : Option ℤ}
    {v : String × (ℚ × ℚ × ℚ)} {vs : List (String × (ℚ × ℚ × ℚ))}
    {pt lo hi : ℚ} {dom : String}
    (h : employeeSignalList B mfun naics lh c3 c612 area p6 pp = v :: vs)
    (hens : ensemble_estimate ((v :: vs).map (fun kv => (kv.1, some kv.2))) =
      some (pt, lo, hi, dom)) :
    (estimate B mfun naics lh c3 c612 area p6 pp).point_estimate = optRound pt ∧
    (estimate B mfun naics lh c3 c612 area p6 pp).ci_lower = optRound lo ∧
    (estimate B mfun naics lh c3 c612 area p6 pp).ci_upper = optRound hi := by
  simp only [List.map_cons] at hens
  refine ⟨?_, ?_, ?_⟩ <;> simp [estimate, h, hens]

theorem optRound_pos {q : ℚ} (h : 0 < q) : optRound q = some (round1 q) := by
  unfold optRound
  rw [if_pos (ne_of_gt h)]

theorem employeeSignalList_unknown {B : String → Option Baseline} {mfun : ℤ → ℚ}
    {naics : String} {c3 c612 : Option ℤ} {area : Option ℚ} {p6 pp : Option ℤ}
    (hB : B naics = none) :
    employeeSignalList B mfun naics none c3 c612 area p6 pp = [] := by
  have h2 : velocitySignal B mfun naics c3 c612 = none := by
    rcases c3 with _ | a
    · rfl
    rcases c612 with _ | b2
    · rfl
    simp [velocitySignal, estimate_from_review_velocity, hB]
  have h3 : areaSignal B naics area = none := by
    rcases area with _ | ar
    · rfl
    simp [areaSignal, estimate_from_building_area, hB]
  have h4 : postingsSignal B naics p6 pp = none := by
    rcases p6 with _ | x
    · rfl
    rcases pp with _ | y
    · rfl
    simp [postingsSignal, estimate_from_job_postings, hB]
  unfold employeeSignalList
  rw [h2, h3, h4]
  simp [optEntry, linkedinSignal]

theorem survivalFactors_weight_pos {days : Option ℤ} {c3 c612 p6 pp : Option ℤ}
    {f s l : Option Bool} :
    ∀ x ∈ survivalFactors days c3 c612 p6 pp f s l, 0 < x.weight := by
  intro x hx
  unfold survivalFactors at hx
  rcases List.mem_append.mp hx with h3 | h
  rotate_left
  · cases hsv : evaluate_street_view f s l with
    | none => simp [streetFactor, hsv] at h
    | some sv =>
      simp only [streetFactor, hsv] at h
      cases sv <;> simp only [Bool.false_eq_true, if_true, if_false] at h <;>
        (rcases List.mem_singleton.mp h with rfl; norm_num)
  rcases List.mem_append.mp h3 with h2 | h
  rotate_left
  · rcases p6 with _ | x6
    · simp [postingsFactor] at h
    simp only [postingsFactor] at h
    split_ifs at h <;> (rcases List.mem_singleton.mp h with rfl; norm_num)
  rcases List.mem_append.mp h2 with h | h
  · rcases days with _ | d
    · simp [recencyFactor] at h
    simp only [recencyFactor] at h
    split_ifs at h <;> (rcases List.mem_singleton.mp h with rfl; norm_num)
  · cases hdr : calculate_review_decay_rate c3 c612 with
    | none => simp [decayFactor, hdr] at h
    | some dr =>
      simp only [decayFactor, hdr] at h
      split_ifs at h <;> (rcases List.mem_singleton.mp h with rfl; norm_num)

theorem surv_conf_eq (n : ℕ) (ss : List ℚ) :
    survDetermineConfidence n ss = countRule n := by
  simp only [survDetermineConfidence, countRule]
  split_ifs <;> rfl

theorem optEntry_names_sublist {n : String} {o : Option (ℚ × ℚ × ℚ)} :
    ((optEntry n o).map (fun kv => kv.1)).Sublist [n] := by
  cases o with
  | none => simp [optEntry]
  | some t =>
    simp only [optEntry]
    by_cases ht : t.1 = 0
    · rw [if_neg (not_not_intro ht)]
      simp
    · rw [if_pos ht]
      simp

theorem recencyFactor_names {d : Option ℤ} :
    ((recencyFactor d).map (fun x => x.name)).Sublist ["review_recency"] := by
  cases d with
  | none => simp [recencyFactor]
  | some d =>
    simp only [recencyFactor]
    split_ifs <;> simp

theorem decayFactor_names {c3 c612 : Option ℤ} :
    ((decayFactor c3 c612).map (fun x => x.name)).Sublist ["review_decay"] := by
  cases hdr : calculate_review_decay_rate c3 c612 with
  | none => simp [decayFactor, hdr]
  | some dr =>
    simp only [decayFactor, hdr]
    split_ifs <;> simp

theorem postingsFactor_names {p6 pp : Option ℤ} :
    ((postingsFactor p6 pp).map (fun x => x.name)).Sublist ["job_postings"] := by
  rcases p6 with _ | x6
  · simp [postingsFactor]
  simp only [postingsFactor]
  split_ifs <;> simp

theorem streetFactor_names {f s l : Option Bool} :
    ((streetFactor f s l).map (fun x => x.name)).Sublist ["street_view"] := by
  cases hsv : evaluate_street_view f s l with
  | none => simp [streetFactor, hsv]
  | some sv =>
    simp only [streetFactor, hsv]
    cases sv <;> simp

theorem estimate_signals (B : String → Option Baseline) (mfun : ℤ → ℚ) (naics : String)
    (lh : Option ℚ) (c3 c612 : Option ℤ) (area : Option ℚ) (p6 pp : Option ℤ) :
    (estimate B mfun naics lh c3 c612 area p6 pp).signals_used =
      (employeeSignalList B mfun naics lh c3 c612 area p6 pp).map (fun kv => kv.1) := by
  simp [estimate]

theorem score_signals (days : Option ℤ) (c3 c612 p6 pp : Option ℤ) (f s l : Option Bool) :
    (score_survival days c3 c612 p6 pp f s l).signals_used =
      (survivalFactors days c3 c612 p6 pp f s l).map (fun x => x.name) := by
  simp [score_survival]

theorem score_confidence (days : Option ℤ) (c3 c612 p6 pp : Option ℤ) (f s l : Option Bool) :
    (score_survival days c3 c612 p6 pp f s l).confidence_level =
      survDetermineConfidence (survivalFactors days c3 c612 p6 pp f s l).length
        ((survivalFactors days c3 c612 p6 pp f s l).map (fun x => x.score)) := by
  simp [score_survival]

theorem velocitySignal_zero (B : String → Option Baseline) (mfun : ℤ → ℚ)
    (naics : String) (c612 : Option ℤ) :
    velocitySignal B mfun naics (some 0) c612 = velocitySignal B mfun naics none c612 := by
  rcases c612 with _ | b2 <;> simp [velocitySignal]

/-- C1 counterexample: with a direct headcount of 0.5 (a float the code
accepts), the returned estimate has `ci_lower = 1 > point_estimate = 0.5`,
violating `ci_lower ≤ point_estimate ≤ ci_upper` as stated. -/
theorem c1_counterexample :
    (estimate B₀ mfun1 "722513" (some (1/2)) none none none none none).point_estimate =
      some (1/2) ∧
    (estimate B₀ mfun1 "722513" (some (1/2)) none none none none none).ci_lower = some 1 ∧
    ¬((1 : ℚ) ≤ 1/2) := by
  have hlist : employeeSignalList B₀ mfun1 "722513" (some (1/2)) none none none none none =
      [("linkedin", ((1/2 : ℚ), (1 : ℚ), (11/20 : ℚ)))] := by
    norm_num [employeeSignalList, linkedinSignal, velocitySignal, areaSignal, postingsSignal,
      estimate_from_linkedin, optEntry]
  have hens : ensemble_estimate [("linkedin", some ((1/2 : ℚ), (1 : ℚ), (11/20 : ℚ)))] =
      some (1/2, 1, 11/20, "linkedin") := by
    norm_num [ensemble_estimate, validEstimates, availableWeights, sumWeights, weightOf,
      listMin, listMax, pyMaxBy, List.filterMap_cons]
  refine ⟨?_, ?_, by norm_num⟩ <;> norm_num [estimate, hlist, hens, optRound, round1]

/-- C1 (amended): for any well-formed baseline table (positive min and
`min ≤ avg ≤ max` in the selected category) and any input whose direct
headcount, if contributing, is at least 1 (headcounts strictly between 0 and 1
break the invariant, see the counterexample), the returned combined estimate
satisfies `ci_lower ≤ point_estimate ≤ ci_upper` — on the single-signal,
ensembled and baseline-fallback paths alike. -/
theorem c1_interval_invariant (B : String → Option Baseline) (mfun : ℤ → ℚ) (naics : String)
    (lh : Option ℚ) (c3 c612 : Option ℤ) (area : Option ℚ) (p6 pp : Option ℤ)
    (hB : ∀ b, B naics = some b → WFb b)
    (hlh : ∀ v, lh = some v → 1 ≤ v ∨ v ≤ 0) :
    ∃ p lo hi,
      (estimate B mfun naics lh c3 c612 area p6 pp).point_estimate = some p ∧
      (estimate B mfun naics lh c3 c612 area p6 pp).ci_lower = some lo ∧
      (estimate B mfun naics lh c3 c612 area p6 pp).ci_upper = some hi ∧
      lo ≤ p ∧ p ≤ hi := by
  rcases hE : employeeSignalList B mfun naics lh c3 c612 area p6 pp with _ | ⟨v, vs⟩
  · rw [estimate_nil hE]
    rcases hBn : B naics with _ | b
    · refine ⟨10, 3, 30, ?_, ?_, ?_, by norm_num, by norm_num⟩ <;>
        norm_num [fallbackAvg, fallbackMin, fallbackMax, hBn, optRound, round1]
    · obtain ⟨hmin, hminavg, havgmax⟩ := hB b hBn
      have havg : 0 < b.avg_employees := lt_of_lt_of_le hmin hminavg
      have hmax : 0 < b.max_employees := lt_of_lt_of_le havg havgmax
      refine ⟨round1 b.avg_employees, round1 b.min_employees, round1 b.max_employees,
        ?_, ?_, ?_, round1_mono hminavg, round1_mono havgmax⟩
      · simp only [fallbackAvg, hBn]
        exact optRound_pos havg
      · simp only [fallbackMin, hBn]
        exact optRound_pos hmin
      · simp only [fallbackMax, hBn]
        exact optRound_pos hmax
  · have hbd := @employeeSignalList_bounds B mfun naics lh c3 c612 area p6 pp hB hlh
    rw [hE] at hbd
    have hp : ∀ kv ∈ (v :: vs),
        listMin ((v :: vs).map (fun kv => kv.2.2.1)) ≤ kv.2.1 ∧
        kv.2.1 ≤ listMax ((v :: vs).map (fun kv => kv.2.2.2)) := by
      intro kv hkv
      obtain ⟨hpos, hl, hu⟩ := hbd kv hkv
      exact ⟨le_trans (listMin_le _ _ (List.mem_map_of_mem _ hkv)) hl,
             le_trans hu (le_listMax _ _ (List.mem_map_of_mem _ hkv))⟩
    obtain ⟨pt, dom, hens, hlopt, hpthi⟩ := ensemble_point_bounds (v :: vs) (by simp) _ _ hp
    have hlopos : 0 < listMin ((v :: vs).map (fun kv => kv.2.2.1)) := by
      obtain ⟨kv0, hkv0, heq⟩ :=
        List.mem_map.mp (listMin_mem ((v :: vs).map (fun kv => kv.2.2.1)) (by simp))
      rw [← heq]
      exact (hbd kv0 hkv0).1
    have hptpos : 0 < pt := lt_of_lt_of_le hlopos hlopt
    have hhipos : 0 < listMax ((v :: vs).map (fun kv => kv.2.2.2)) :=
      lt_of_lt_of_le hptpos hpthi
    obtain ⟨hp1, hp2, hp3⟩ := estimate_cons hE hens
    exact ⟨round1 pt, round1 (listMin ((v :: vs).map (fun kv => kv.2.2.1))),
      round1 (listMax ((v :: vs).map (fun kv => kv.2.2.2))),
      by rw [hp1]; exact optRound_pos hptpos,
      by rw [hp2]; exact optRound_pos hlopos,
      by rw [hp3]; exact optRound_pos hhipos,
      round1_mono hlopt, round1_mono hpthi⟩

/-- C1 witness: the amended invariant instantiated at the configured table,
category 722513 and a direct headcount of 25. -/
theorem c1_interval_invariant_witness :
    ∃ p lo hi,
      (estimate B₀ mfun1 "722513" (some 25) none none none none none).point_estimate = some p ∧
      (estimate B₀ mfun1 "722513" (some 25) none none none none none).ci_lower = some lo ∧
      (estimate B₀ mfun1 "722513" (some 25) none none none none none).ci_upper = some hi ∧
      lo ≤ p ∧ p ≤ hi :=
  c1_interval_invariant B₀ mfun1 "722513" (some 25) none none none none none
    (by intro b hb
        rw [show B₀ "722513" = some cfg722513 from rfl] at hb
        injection hb with h
        rw [← h]
        norm_num [WFb, cfg722513])
    (by intro v hv
        injection hv with h
        left
        rw [← h]
        norm_num)

/-- C2 counterexample: calling the employee estimator with the unrecognized
category 999999 raises nothing; with no signals it silently returns the
hard-coded default baseline constants (10, 3, 30) with dominant signal
baseline — the source uses `.get` with defaults instead of failing fast. -/
theorem c2_counterexample :
    estimate B₀ mfun1 "999999" none none none none none none =
      ⟨some 10, some 3, some 30, "low", "rule_based", "baseline", []⟩ ∧
    B₀ "999999" = none := by
  have hB : B₀ "999999" = none := rfl
  refine ⟨?_, hB⟩
  rw [estimate_nil (employeeSignalList_unknown hB)]
  norm_num [fallbackAvg, fallbackMin, fallbackMax, hB, optRound, round1]

/-- C2 (amended): an unknown category is not rejected and no error is raised.
Every category-dependent per-signal estimator returns no opinion for it, so
with no direct headcount the call degrades to the hard-coded default constants
`avg 10, min 3, max 30` with dominant signal baseline and confidence low —
rather than raising a configuration error at call entry. -/
theorem c2_unknown_category (B : String → Option Baseline) (mfun : ℤ → ℚ)
    (naics : String) (c3 c612 : Option ℤ) (area : Option ℚ) (p6 pp : Option ℤ)
    (hB : B naics = none) :
    estimate B mfun naics none c3 c612 area p6 pp =
      ⟨some 10, some 3, some 30, "low", "rule_based", "baseline", []⟩ := by
  rw [estimate_nil (employeeSignalList_unknown hB)]
  norm_num [fallbackAvg, fallbackMin, fallbackMax, hB, optRound, round1]

/-- C2 witness: the amended behaviour at the configured table and an
arbitrary unrecognized category with arbitrary review/area/posting inputs. -/
theorem c2_unknown_category_witness :
    estimate B₀ mfun1 "999999" none (some 7) (some 9) (some 120) (some 2) (some 4) =
      ⟨some 10, some 3, some 30, "low", "rule_based", "baseline", []⟩ :=
  c2_unknown_category B₀ mfun1 "999999" (some 7) (some 9) (some 120) (some 2) (some 4) rfl

/-- C3 counterexample: with only a direct headcount of 1000 in category
722513 (max_employees = 50), the combined point estimate is 1000, far outside
the category clamp range — the direct-count signal is never clamped. -/
theorem c3_counterexample :
    (estimate B₀ mfun1 "722513" (some 1000) none none none none none).point_estimate =
      some 1000 ∧
    cfg722513.max_employees = 50 ∧ ¬((1000 : ℚ) ≤ 50) := by
  have hlist : employeeSignalList B₀ mfun1 "722513" (some 1000) none none none none none =
      [("linkedin", ((1000 : ℚ), (900 : ℚ), (1100 : ℚ)))] := by
    norm_num [employeeSignalList, linkedinSignal, velocitySignal, areaSignal, postingsSignal,
      estimate_from_linkedin, optEntry]
  have hens : ensemble_estimate [("linkedin", some ((1000 : ℚ), (900 : ℚ), (1100 : ℚ)))] =
      some (1000, 900, 1100, "linkedin") := by
    norm_num [ensemble_estimate, validEstimates, availableWeights, sumWeights, weightOf,
      listMin, listMax, pyMaxBy, List.filterMap_cons]
  refine ⟨?_, by norm_num [cfg722513], by norm_num⟩
  norm_num [estimate, hlist, hens, optRound, round1]

/-- C3 (amended): when the direct-count signal is absent, the combined point
estimate does lie within the selected category's `[min_employees,
max_employees]` (for a well-formed baseline whose clamp bounds are exact at
one decimal, as all configured ones are) — the three clamped estimators and
the baseline fallback keep the weighted average inside the range; only the
unclamped direct-count signal can leave it. -/
theorem c3_clamp_no_linkedin (B : String → Option Baseline) (mfun : ℤ → ℚ) (naics : String)
    (c3 c612 : Option ℤ) (area : Option ℚ) (p6 pp : Option ℤ) (b : Baseline)
    (hb : B naics = some b) (hwf : WFb b)
    (hminr : round1 b.min_employees = b.min_employees)
    (hmaxr : round1 b.max_employees = b.max_employees) :
    ∃ p, (estimate B mfun naics none c3 c612 area p6 pp).point_estimate = some p ∧
      b.min_employees ≤ p ∧ p ≤ b.max_employees := by
  obtain ⟨hmin, hminavg, havgmax⟩ := hwf
  rcases hE : employeeSignalList B mfun naics none c3 c612 area p6 pp with _ | ⟨v, vs⟩
  · rw [estimate_nil hE]
    have havg : 0 < b.avg_employees := lt_of_lt_of_le hmin hminavg
    refine ⟨round1 b.avg_employees, ?_, ?_, ?_⟩
    · simp only [fallbackAvg, hb]
      exact optRound_pos havg
    · rw [← hminr]
      exact round1_mono hminavg
    · rw [← hmaxr]
      exact round1_mono havgmax
  · have hrng := @employeeSignalList_range B mfun naics c3 c612 area p6 pp b hb ⟨hmin, hminavg, havgmax⟩
    rw [hE] at hrng
    obtain ⟨pt, dom, hens, h1, h2⟩ := ensemble_point_bounds (v :: vs) (by simp) _ _ hrng
    have hptpos : 0 < pt := lt_of_lt_of_le hmin h1
    obtain ⟨hp1, _, _⟩ := estimate_cons hE hens
    refine ⟨round1 pt, ?_, ?_, ?_⟩
    · rw [hp1]
      exact optRound_pos hptpos
    · rw [← hminr]
      exact round1_mono h1
    · rw [← hmaxr]
      exact round1_mono h2

/-- C3 witness: the amended clamp property at category 722513 with a
review-velocity signal (counts 10 and 10) contributing. -/
theorem c3_clamp_no_linkedin_witness :
    ∃ p, (estimate B₀ mfun1 "722513" none (some 10) (some 10) none none none).point_estimate =
        some p ∧
      cfg722513.min_employees ≤ p ∧ p ≤ cfg722513.max_employees :=
  c3_clamp_no_linkedin B₀ mfun1 "722513" (some 10) (some 10) none none none cfg722513 rfl
    (by norm_num [WFb, cfg722513]) (by norm_num [round1, cfg722513])
    (by norm_num [round1, cfg722513])

/-- C4 counterexample: a survival input with exactly one contributing factor
(a 400-day-old last review) yields confidence low, not the claimed medium. -/
theorem c4_counterexample :
    (score_survival (some 400) none none none none none none none).signals_used =
      ["review_recency"] ∧
    (score_survival (some 400) none none none none none none none).confidence_level = "low" ∧
    "low" ≠ "medium" := by
  refine ⟨?_, ?_, by decide⟩ <;>
    norm_num [score_survival, survivalFactors, recencyFactor, decayFactor, postingsFactor,
      streetFactor, calculate_review_decay_rate, evaluate_street_view, survDetermineConfidence,
      survivalNormWeights, identifyPrimary]

/-- C4 (amended): the survival confidence is determined by the contributing
factor count alone — three or more factors give high (the variance computed
in the source is dead: both of its branches return high), exactly two give
medium, and one or zero give low (not medium for one, contrary to the claim). -/
theorem c4_confidence_count_rule :
    ∀ (days : Option ℤ) (c3 c612 p6 pp : Option ℤ) (f s l : Option Bool),
      (score_survival days c3 c612 p6 pp f s l).confidence_level =
        countRule (score_survival days c3 c612 p6 pp f s l).signals_used.length := by
  intro days c3 c612 p6 pp f s l
  rw [score_confidence, score_signals, List.length_map]
  exact surv_conf_eq _ _

/-- C5: in the employee-path review-velocity estimator, when both review
windows meet the minimum sample (≥ 3 each) but the historical monthly rate
`c612 / 6` is below the guard threshold 1, an estimate is still produced, and
its intensity ratio divides by the category's typical review velocity
`avg_reviews_per_month` — the ratio is not left undefined.  (In the survival
path the analogous situation is unreachable: its minimum sample forces the
historical rate to at least 1/3, above its 0.1 epsilon.) -/
theorem c5_decay_guard (B : String → Option Baseline) (mfun : ℤ → ℚ) (naics : String)
    (b : Baseline) (c3 c612 : ℤ) (hb : B naics = some b)
    (hrpm : 0 < b.avg_reviews_per_month) (h3 : 3 ≤ c3) (h6 : 3 ≤ c612)
    (heps : ((c612 : ℚ)) / 6 < 1) :
    ∃ t, estimate_from_review_velocity B mfun c3 c612 naics = some t ∧
      t.1 = npClip (b.avg_employees * (((c3 : ℚ) / 3) / b.avg_reviews_per_month))
        b.min_employees b.max_employees := by
  simp only [estimate_from_review_velocity, hb]
  rw [if_neg (show ¬(c3 < 3 ∨ c612 < 3) by omega)]
  refine ⟨_, rfl, ?_⟩
  simp only [if_pos hrpm]

/-- C5 witness: category 722513 with counts 4 and 3 — historical monthly rate
1/2 < 1 — still produces an estimate whose intensity divides by the typical
velocity 15. -/
theorem c5_decay_guard_witness :
    ((3 : ℤ) ≤ 4 ∧ ((3 : ℤ) : ℚ) / 6 < 1) ∧
    ∃ t, estimate_from_review_velocity B₀ mfun1 4 3 "722513" = some t ∧
      t.1 = npClip (cfg722513.avg_employees * ((((4 : ℤ) : ℚ) / 3) / cfg722513.avg_reviews_per_month))
        cfg722513.min_employees cfg722513.max_employees :=
  ⟨⟨by norm_num, by norm_num⟩,
   c5_decay_guard B₀ mfun1 "722513" cfg722513 4 3 rfl (by norm_num [cfg722513])
     (by norm_num) (by norm_num) (by norm_num)⟩

/-- C6: an input whose only available signal is a direct headcount of 25
returns point estimate exactly 25, interval [22.5, 27.5], confidence high,
and linkedin as dominant signal — for every baseline table and category,
since the direct-count path never consults the baseline. -/
theorem c6_linkedin_scenario :
    ∀ (B : String → Option Baseline) (mfun : ℤ → ℚ) (naics : String),
      estimate B mfun naics (some 25) none none none none none =
        ⟨some 25, some (45/2), some (55/2), "high", "linkedin", "linkedin", ["linkedin"]⟩ := by
  intro B mfun naics
  have hlist : employeeSignalList B mfun naics (some 25) none none none none none =
      [("linkedin", ((25 : ℚ), (45/2 : ℚ), (55/2 : ℚ)))] := by
    norm_num [employeeSignalList, linkedinSignal, velocitySignal, areaSignal, postingsSignal,
      estimate_from_linkedin, optEntry]
  have hens : ensemble_estimate [("linkedin", some ((25 : ℚ), (45/2 : ℚ), (55/2 : ℚ)))] =
      some (25, 45/2, 55/2, "linkedin") := by
    norm_num [ensemble_estimate, validEstimates, availableWeights, sumWeights, weightOf,
      listMin, listMax, pyMaxBy, List.filterMap_cons]
  norm_num [estimate, hlist, hens, determineConfidence, optRound, round1]

/-- C7: for every non-empty contributing set, the renormalized weights sum to
exactly 1 in both combiners (the employee ensemble's `available_weights` and
the survival scorer's normalized weight list), and absent signals contribute
nothing: the ensemble output depends only on the valid (non-missing) entries. -/
theorem c7_weights_sum_one :
    (∀ valid : List (String × (ℚ × ℚ × ℚ)), valid ≠ [] →
      ((availableWeights valid).map (fun kv => kv.2)).sum = 1) ∧
    (∀ (days : Option ℤ) (c3 c612 p6 pp : Option ℤ) (f s l : Option Bool),
      survivalFactors days c3 c612 p6 pp f s l ≠ [] →
      (survivalNormWeights (survivalFactors days c3 c612 p6 pp f s l)).sum = 1) ∧
    (∀ estimates : List (String × Option (ℚ × ℚ × ℚ)),
      ensemble_estimate estimates =
        ensemble_estimate ((validEstimates estimates).map (fun kv => (kv.1, some kv.2)))) := by
  refine ⟨?_, ?_, ?_⟩
  · intro valid hne
    rw [availableWeights_snd]
    exact sum_norm_one valid (fun kv => weightOf kv.1) (fun kv _ => weightOf_pos kv.1) hne
  · intro days c3 c612 p6 pp f s l hne
    unfold survivalNormWeights
    rw [List.map_map]
    exact sum_norm_one _ (fun x => x.weight)
      (fun x hx => survivalFactors_weight_pos x hx) hne
  · intro estimates
    unfold ensemble_estimate
    rw [validEstimates_map_some]

/-- C7 witness: both sum-to-one conjuncts instantiated — the employee
ensemble with the single linkedin contributor and the survival scorer with
the single recency factor. -/
theorem c7_weights_sum_one_witness :
    ((availableWeights [("linkedin", ((25 : ℚ), (45/2 : ℚ), (55/2 : ℚ)))]).map
      (fun kv => kv.2)).sum = 1 ∧
    (survivalNormWeights
      (survivalFactors (some 10) none none none none none none none)).sum = 1 :=
  ⟨c7_weights_sum_one.1 _ (by simp),
   c7_weights_sum_one.2.1 (some 10) none none none none none none none
     (by norm_num [survivalFactors, recencyFactor, decayFactor, postingsFactor, streetFactor,
       calculate_review_decay_rate, evaluate_street_view])⟩

/-- C8 counterexample: in category 722513 (typical 12, min clamp 4, typical
velocity 15), raising the recent review count from 3 to 6 leaves the
review-velocity point estimate unchanged at the min clamp 4, although 4 is
far below the max clamp 50 — so the estimate is not strictly increasing up to
the max clamp; the min clamp also flattens it. -/
theorem c8_counterexample :
    estimate_from_review_velocity B₀ mfun1 3 6 "722513" = some (4, 4, 8) ∧
    estimate_from_review_velocity B₀ mfun1 6 6 "722513" = some (4, 4, 8) ∧
    (3 : ℤ) < 6 ∧ (4 : ℚ) < cfg722513.max_employees := by
  refine ⟨?_, ?_, by norm_num, by norm_num [cfg722513]⟩ <;>
    norm_num [estimate_from_review_velocity, B₀, cfg722513, npClip, mfun1]

/-- C8 (amended): holding the category and the historical window fixed,
increasing the recent review count strictly increases the review-velocity
point estimate provided the unclamped value of the smaller input already
reaches the category min clamp and that of the larger input stays below the
max clamp — between the two clamps the response is strictly monotone. -/
theorem c8_monotone_between_clamps (B : String → Option Baseline) (mfun : ℤ → ℚ)
    (naics : String) (b : Baseline) (c3 c3' c612 : ℤ)
    (hb : B naics = some b) (hrpm : 0 < b.avg_reviews_per_month)
    (havg : 0 < b.avg_employees) (h3 : 3 ≤ c3) (hlt : c3 < c3') (h6 : 3 ≤ c612)
    (hlo : b.min_employees ≤ b.avg_employees * (((c3 : ℚ) / 3) / b.avg_reviews_per_month))
    (hhi : b.avg_employees * (((c3' : ℚ) / 3) / b.avg_reviews_per_month) ≤ b.max_employees) :
    ∃ t t', estimate_from_review_velocity B mfun c3 c612 naics = some t ∧
      estimate_from_review_velocity B mfun c3' c612 naics = some t' ∧ t.1 < t'.1 := by
  have hc : (c3 : ℚ) < (c3' : ℚ) := by exact_mod_cast hlt
  have h13 : (c3 : ℚ) / 3 < (c3' : ℚ) / 3 := by linarith
  have h2 : ((c3 : ℚ) / 3) / b.avg_reviews_per_month <
      ((c3' : ℚ) / 3) / b.avg_reviews_per_month := by
    rw [div_eq_mul_inv, div_eq_mul_inv ((c3' : ℚ) / 3)]
    exact mul_lt_mul_of_pos_right h13 (inv_pos.mpr hrpm)
  have huu : b.avg_employees * (((c3 : ℚ) / 3) / b.avg_reviews_per_month) <
      b.avg_employees * (((c3' : ℚ) / 3) / b.avg_reviews_per_month) :=
    mul_lt_mul_of_pos_left h2 havg
  simp only [estimate_from_review_velocity, hb]
  rw [if_neg (show ¬(c3 < 3 ∨ c612 < 3) by omega),
    if_neg (show ¬(c3' < 3 ∨ c612 < 3) by omega)]
  refine ⟨_, _, rfl, rfl, ?_⟩
  simp only [if_pos hrpm]
  have hu'lo : b.min_employees ≤
      b.avg_employees * (((c3' : ℚ) / 3) / b.avg_reviews_per_month) :=
    le_trans hlo (le_of_lt huu)
  have huhi : b.avg_employees * (((c3 : ℚ) / 3) / b.avg_reviews_per_month) ≤
      b.max_employees :=
    le_trans (le_of_lt huu) hhi
  unfold npClip
  rw [max_eq_left hlo, max_eq_left hu'lo, min_eq_left huhi, min_eq_left hhi]
  exact huu

/-- C8 witness: category 722513, historical count 6, recent counts 15 and 30 —
both unclamped values (4 and 8) lie between the clamps, and the point
estimate strictly increases. -/
theorem c8_monotone_between_clamps_witness :
    ∃ t t', estimate_from_review_velocity B₀ mfun1 15 6 "722513" = some t ∧
      estimate_from_review_velocity B₀ mfun1 30 6 "722513" = some t' ∧ t.1 < t'.1 :=
  c8_monotone_between_clamps B₀ mfun1 "722513" cfg722513 15 30 6 rfl
    (by norm_num [cfg722513]) (by norm_num [cfg722513]) (by norm_num) (by norm_num)
    (by norm_num) (by norm_num [cfg722513]) (by norm_num [cfg722513])

/-- C9 counterexample: a present zero review count is coerced into the
explicit missing marker — the decay-rate computation maps a literal 0 recent
count to the same `none` as a missing count, and the whole survival scoring
returns bit-identical results for the two bundles. -/
theorem c9_counterexample :
    calculate_review_decay_rate (some 0) (some 10) = none ∧
    score_survival none (some 0) (some 10) none none none none none =
      score_survival none none (some 10) none none none none none := by
  constructor
  · simp [calculate_review_decay_rate]
  · norm_num [score_survival, survivalFactors, recencyFactor, decayFactor, postingsFactor,
      streetFactor, calculate_review_decay_rate, evaluate_street_view]

/-- C9 (amended): zero-versus-missing distinguishability holds only for the
job-posting counts.  Review counts go through truthiness checks, so a present
zero recent count is treated exactly like a missing one in both the survival
decay computation and the employee estimator; job-posting counts are checked
with is-not-None, so a present zero posting count contributes a factor
(different signals_used) where a missing one does not. -/
theorem c9_zero_vs_missing :
    (∀ c612 : Option ℤ, calculate_review_decay_rate (some 0) c612 =
      calculate_review_decay_rate none c612) ∧
    (∀ (B : String → Option Baseline) (mfun : ℤ → ℚ) (naics : String) (lh : Option ℚ)
        (c612 : Option ℤ) (area : Option ℚ) (p6 pp : Option ℤ),
      estimate B mfun naics lh (some 0) c612 area p6 pp =
        estimate B mfun naics lh none c612 area p6 pp) ∧
    (score_survival none none none (some 0) (some 5) none none none).signals_used =
      ["job_postings"] ∧
    (score_survival none none none none (some 5) none none none).signals_used = [] := by
  refine ⟨?_, ?_, ?_, ?_⟩
  · intro c612
    rcases c612 with _ | b2 <;> simp [calculate_review_decay_rate]
  · intro B mfun naics lh c612 area p6 pp
    have h : employeeSignalList B mfun naics lh (some 0) c612 area p6 pp =
        employeeSignalList B mfun naics lh none c612 area p6 pp := by
      unfold employeeSignalList
      rw [velocitySignal_zero]
    simp only [estimate, h]
  · norm_num [score_survival, survivalFactors, recencyFactor, decayFactor, postingsFactor,
      streetFactor, calculate_review_decay_rate, evaluate_street_view,
      evaluate_job_posting_activity, peakTruthyPos]
  · norm_num [score_survival, survivalFactors, recencyFactor, decayFactor, postingsFactor,
      streetFactor, calculate_review_decay_rate, evaluate_street_view,
      evaluate_job_posting_activity, peakTruthyPos]

/-- C10: in every result, signals_used is a duplicate-free sublist of the
fixed priority order — linkedin, review_velocity, building_area, job_postings
on the employee path and review_recency, review_decay, job_postings,
street_view on the survival path — i.e. the contributing signals in that
fixed order. -/
theorem c10_signals_order :
    (∀ (B : String → Option Baseline) (mfun : ℤ → ℚ) (naics : String) (lh : Option ℚ)
        (c3 c612 : Option ℤ) (area : Option ℚ) (p6 pp : Option ℤ),
      ((estimate B mfun naics lh c3 c612 area p6 pp).signals_used).Sublist
        employeeSignalOrder ∧
      ((estimate B mfun naics lh c3 c612 area p6 pp).signals_used).Nodup) ∧
    (∀ (days c3 c612 p6 pp : Option ℤ) (f s l : Option Bool),
      ((score_survival days c3 c612 p6 pp f s l).signals_used).Sublist
        survivalSignalOrder ∧
      ((score_survival days c3 c612 p6 pp f s l).signals_used).Nodup) := by
  constructor
  · intro B mfun naics lh c3 c612 area p6 pp
    rw [estimate_signals]
    have hsub : ((employeeSignalList B mfun naics lh c3 c612 area p6 pp).map
        (fun kv => kv.1)).Sublist employeeSignalOrder := by
      unfold employeeSignalList
      simp only [List.map_append]
      exact ((optEntry_names_sublist.append optEntry_names_sublist).append
        optEntry_names_sublist).append optEntry_names_sublist
    exact ⟨hsub, hsub.nodup (by decide)⟩
  · intro days c3 c612 p6 pp f s l
    rw [score_signals]
    have hsub : ((survivalFactors days c3 c612 p6 pp f s l).map
        (fun x => x.name)).Sublist survivalSignalOrder := by
      unfold survivalFactors
      simp only [List.map_append]
      exact ((recencyFactor_names.append decayFactor_names).append
        postingsFactor_names).append streetFactor_names
    exact ⟨hsub, hsub.nodup (by decide)⟩

end NETS
